import Mathlib

/-!
Verification development for the Anchor context engine.

The repository's retrieval pipeline is embedded shallowly: each JS/TS
function that a claim depends on is translated into an executable Lean
definition over explicit store values.  External effects (the CozoDB
relation, the MD5 digest, the filesystem, Date.now, base64 ids, the FTS
index) are passed in as explicit parameters, so every definition is a
pure function of its inputs.
-/

namespace Anchor

/-- Intersection of two string lists, keeping the order of the first.
Models both the Cozo builtin intersection(xs, ys) used in datalog filter
clauses (only emptiness / length of the result is ever consumed) and the
JS idiom xs.filter(t => ys.includes(t)). -/
def listInter (xs ys : List String) : List String :=
  xs.filter (fun x => ys.contains x)

/-- First-occurrence deduplication of a string list: the observable
behavior of the JS idiom of spreading a Set built from an array. -/
def jsDedup (l : List String) : List String :=
  l.foldl (fun acc x => if acc.contains x then acc else acc ++ [x]) []

/-- Stable insertion (descending by key): x is placed before the first
element whose key is at most key x.  Together with sortDescBy this
models the stable JS Array.sort with comparator (a, b) => key b - key a. -/
def insDesc {α : Type} (key : α → ℚ) (x : α) : List α → List α
  | [] => [x]
  | y :: ys => if key y ≤ key x then x :: y :: ys else y :: insDesc key x ys

/-- Stable sort, descending by a rational key (JS stable Array.sort with
comparator (a, b) => key b - key a). -/
def sortDescBy {α : Type} (key : α → ℚ) (l : List α) : List α :=
  l.foldr (insDesc key) []

/-- Stable sort, ascending by a rational key (JS stable Array.sort with
comparator (a, b) => key a - key b). -/
def sortAscBy {α : Type} (key : α → ℚ) (l : List α) : List α :=
  sortDescBy (fun a => -(key a)) l

/-- ASCII alphanumeric test, the character class [a-zA-Z0-9]. -/
def isAlnumChar (c : Char) : Bool := c.isAlpha || c.isDigit

/-- Fuel-indexed splitter into maximal runs of characters failing p. -/
def wordsByAux (p : Char → Bool) : Nat → List Char → List (List Char)
  | 0, _ => []
  | _ + 1, [] => []
  | fuel + 1, c :: cs =>
    if p c then wordsByAux p fuel cs
    else ((c :: cs).takeWhile (fun d => !p d)) ::
      wordsByAux p fuel (cs.dropWhile (fun d => !p d))

/-- Splits a character list into the maximal runs of characters failing p
(the words of the list, for p the whitespace test).  Replacing every run
of whitespace by a single space and trimming, as the JS chain
replace(bs-s+, one space).trim() does, yields exactly these words joined
by single spaces. -/
def wordsBy (p : Char → Bool) (l : List Char) : List (List Char) :=
  wordsByAux p l.length l

/-- FTS query sanitization from runTraditionalSearch in
src/services/search/search.ts: replace every character outside
[a-zA-Z0-9] and whitespace by a space, collapse whitespace runs to a
single space, trim, and lower-case. -/
def sanitizeFtsQuery (q : String) : String :=
  let replaced := q.data.map (fun c => if isAlnumChar c || c.isWhitespace then c else ' ')
  let toks := wordsBy (fun c => c.isWhitespace) replaced
  String.mk ((List.intercalate [' '] toks).map Char.toLower)

/-- A row of the memory relation as read by the Tag-Walker search service
(src/services/search/search.ts): columns id, content, source, timestamp,
buckets, tags, epochs, provenance. -/
structure MemoryRow where
  id : String
  content : String
  source : String
  timestamp : Nat
  buckets : List String
  tags : List String
  epochs : String
  provenance : String
deriving DecidableEq, Repr

/-- The SearchResult record of src/services/search/search.ts: a memory
row together with a score. -/
structure SearchResult where
  id : String
  content : String
  source : String
  timestamp : Nat
  buckets : List String
  tags : List String
  epochs : String
  provenance : String
  score : ℚ
deriving DecidableEq, Repr

/-- Hydrating a memory row into a SearchResult with a given score. -/
def MemoryRow.toResult (r : MemoryRow) (score : ℚ) : SearchResult :=
  ⟨r.id, r.content, r.source, r.timestamp, r.buckets, r.tags, r.epochs, r.provenance, score⟩

/-- runTraditionalSearch from src/services/search/search.ts.  The FTS
engine is a parameter: it receives the sanitized query and either fails
(the catch branch returns []) or returns (id, score) hits.  The datalog
query joins each hit with the memory relation by id and, when a
non-empty bucket list is supplied, keeps only rows whose buckets
intersect it. -/
def runTraditionalSearch (fts : String → Except String (List (String × ℚ)))
    (store : List MemoryRow) (query : String) (buckets : List String) :
    List SearchResult :=
  let s := sanitizeFtsQuery query
  if s = "" then []
  else
    match fts s with
    | .error _ => []
    | .ok hits =>
      hits.flatMap (fun h =>
        (store.filter (fun r =>
          r.id == h.1 && (buckets.isEmpty || !(listInter r.buckets buckets).isEmpty))).map
          (fun r => r.toResult h.2))

/-- The provenance boost applied to each anchor in executeSearch
(src/services/search/search.ts): keyed on the caller's mode and on the
provenance string stored in the row. -/
def boostAnchor (mode : String) (r : SearchResult) : SearchResult :=
  if mode = "sovereign" then
    if r.provenance = "sovereign" then { r with score := r.score * 3 }
    else { r with score := r.score * (1 / 2) }
  else if mode = "external" then
    if r.provenance ≠ "sovereign" then { r with score := r.score * (3 / 2) }
    else r
  else
    if r.provenance = "sovereign" then { r with score := r.score * 2 }
    else r

/-- One step of the includedIds discipline: push r unless its id is
already present. -/
def dedupStep (acc : List SearchResult) (r : SearchResult) : List SearchResult :=
  if acc.any (fun a => a.id == r.id) then acc else acc ++ [r]

/-- Keep the first result carrying each id, in order: the includedIds
set discipline of executeSearch. -/
def dedupById (l : List SearchResult) : List SearchResult :=
  l.foldl dedupStep []

/-- neighborWalk from src/services/search/search.ts.  The datalog query
returns, in relation order, rows whose tags intersect the deduplicated
non-empty source tags, limited to count * 2; excluded ids are filtered,
each neighbor is scored 50 + 10 per shared tag, and the first count are
returned (a slice, with no sort). -/
def neighborWalk (store : List MemoryRow) (sourceTags : List String)
    (excludeIds : List String) (count : Nat) : List SearchResult :=
  if sourceTags.isEmpty then []
  else
    let uniqueTags := (jsDedup sourceTags).filter (fun t => t.length > 0)
    if uniqueTags.isEmpty then []
    else
      let rows := (store.filter (fun r => !(listInter r.tags uniqueTags).isEmpty)).take (count * 2)
      let neighbors := rows.map (fun r => r.toResult 1)
      let neighbors := neighbors.filter (fun n => !excludeIds.contains n.id)
      let neighbors := neighbors.map (fun n =>
        { n with score := 50 + 10 * ((listInter n.tags uniqueTags).length : ℚ) })
      neighbors.take count

/-- executeSearch from src/services/search/search.ts (Tag-Walker
protocol), returning the final ranked result list.  Parameters fts and
engram stand for the FTS index and the engram relation lookup; the
budget split constants model Math.ceil of maxChars / 500 and of the 70
and 30 percent shares.  formatResults re-sorts with the same stable
comparator, which fixes the already-sorted list, so the value returned
to the caller is this list. -/
def executeSearch (fts : String → Except String (List (String × ℚ)))
    (engram : String → List String) (store : List MemoryRow)
    (query : String) (bucket : Option String) (buckets : Option (List String))
    (maxChars : Nat) (mode : String) : List SearchResult :=
  let totalTarget := (maxChars + 499) / 500
  let phase1Target := (7 * totalTarget + 9) / 10
  let phase3Target := (3 * totalTarget + 9) / 10
  let engramIds := engram query
  let engramRows := store.filter (fun r => engramIds.contains r.id)
  let f0 := dedupById (engramRows.map (fun r => r.toResult 100))
  let targetBuckets := buckets.getD (match bucket with | some b => [b] | none => [])
  let anchorResults := (runTraditionalSearch fts store query targetBuckets).map (boostAnchor mode)
  let sortedAnchors := sortDescBy (fun r => r.score) anchorResults
  let topAnchors := sortedAnchors.take (max 10 (phase1Target * 2))
  let merged1 := dedupById (f0 ++ topAnchors)
  let harvested := jsDedup (merged1.flatMap (fun r => r.tags ++ r.buckets))
  let includedIds := merged1.map (fun r => r.id)
  let neighbors :=
    if !harvested.isEmpty && phase3Target > 0 then
      neighborWalk store harvested includedIds phase3Target
    else []
  let neighbors := neighbors.map (fun r =>
    if mode = "sovereign" && r.provenance = "sovereign" then
      { r with score := r.score * (3 / 2) }
    else r)
  let finalResults := dedupById (merged1 ++ neighbors)
  sortDescBy (fun r => r.score) finalResults

/-- A row of the memory relation in the modular engine schema used by
src/engine/src/services/ingest.js: buckets is a list of strings. -/
structure IngestRow where
  id : String
  timestamp : Nat
  content : String
  source : String
  type : String
  hash : String
  buckets : List String
deriving DecidableEq, Repr

/-- A row of the memory relation in the legacy single-bucket schema
created by engine/src/server.js and hydrate.js:
id => timestamp, content, source, type, hash, bucket. -/
structure LegacyRow where
  id : String
  timestamp : Nat
  content : String
  source : String
  type : String
  hash : String
  bucket : String
deriving DecidableEq, Repr

/-- Outcome of a direct ingest call: the reported status and id, and the
memory relation afterwards. -/
structure IngestOutcome where
  status : String
  id : String
  store : List IngestRow
deriving DecidableEq, Repr

/-- ingestContent from src/engine/src/services/ingest.js.  hashFn stands
for the MD5 hex digest, newId for the generated doc id (Date.now plus a
random suffix) and now for Date.now.  The dedup check is a GLOBAL hash
lookup: any row with the same hash, in any bucket, makes the call return
skipped with that row's id and leave the store unchanged. -/
def ingestContent (hashFn : String → String) (newId : String) (now : Nat)
    (store : List IngestRow) (content filename source ty : String)
    (buckets : List String) : Except String IngestOutcome :=
  if content = "" then .error "Content required"
  else
    let hash := hashFn content
    match store.find? (fun r => r.hash == hash) with
    | some r => .ok ⟨"skipped", r.id, store⟩
    | none =>
      let src := if source ≠ "" then source else if filename ≠ "" then filename else "unknown"
      .ok ⟨"success", newId, store ++ [⟨newId, now, content, src, ty, hash, buckets⟩]⟩

/-- Upsert by primary key id: the semantics of the Cozo :put operation
on the memory relation. -/
def putRow (store : List LegacyRow) (row : LegacyRow) : List LegacyRow :=
  if store.any (fun r => r.id == row.id) then
    store.map (fun r => if r.id == row.id then row else r)
  else store ++ [row]

/-- The database portion of handleFileChange from
src/engine/src/services/watcher.js (the watcher ingest path), after the
file has been read: hash the content, derive the bucket from the first
path segment (core when the file sits in the watched root), check for a
duplicate by the PAIR (hash, bucket), and otherwise :put a row under the
path-stable id.  hashFn stands for MD5, idOf for the base64 path id
(file_ prefix, padding stripped), now for Date.now; pathParts is
relPath split on the platform separator. -/
def watcherIngest (hashFn idOf : String → String) (now : Nat)
    (store : List LegacyRow) (content relPath : String)
    (pathParts : List String) (ext : String) : List LegacyRow :=
  let hash := hashFn content
  let bucket := if pathParts.length > 1 then pathParts.headD "core" else "core"
  if !(store.filter (fun r => r.hash == hash && r.bucket == bucket)).isEmpty then store
  else
    let id := "file_" ++ idOf relPath
    let ty := if ext ≠ "" then ext else "text"
    putRow store ⟨id, now, content, relPath, ty, hash, bucket⟩

/-- A record of the snapshot file (backups yaml): the seven compound
fields.  hash and bucket are optional because hydrate backfills them
when a legacy snapshot lacks them. -/
structure SnapRecord where
  id : String
  timestamp : Nat
  content : String
  source : String
  type : String
  hash : Option String
  bucket : Option String
deriving DecidableEq, Repr

/-- The GET /v1/backup handler of engine/src/server.js restricted to its
data contents: every row of the memory relation is exported as a record
with the seven fields id, timestamp, content, source, type, hash,
bucket (serialization to YAML text is the js-yaml library's concern and
is not modelled). -/
def eject (store : List LegacyRow) : List SnapRecord :=
  store.map (fun r => ⟨r.id, r.timestamp, r.content, r.source, r.type, some r.hash, some r.bucket⟩)

/-- The per-record mapping of hydrate in engine/src/hydrate.js: missing
hash is backfilled as the digest of the content, missing bucket defaults
to core; parseInt on an integer timestamp is the identity. -/
def hydrateRecord (hashFn : String → String) (r : SnapRecord) : LegacyRow :=
  ⟨r.id, r.timestamp, r.content, r.source, r.type,
    r.hash.getD (hashFn r.content), r.bucket.getD "core"⟩

/-- hydrate from engine/src/hydrate.js: every snapshot record is :put
into the memory relation (batching by 100 is equivalent to the
sequential fold).  No dedup check is performed. -/
def hydrate (hashFn : String → String) (store : List LegacyRow)
    (records : List SnapRecord) : List LegacyRow :=
  records.foldl (fun st r => putRow st (hydrateRecord hashFn r)) store

/-- A backup file in the backups directory: its name, its modification
time and the snapshot records it holds. -/
structure BackupFile where
  name : String
  mtime : Nat
  records : List SnapRecord
deriving DecidableEq, Repr

/-- The JS test s.endsWith(suffix), computed on the character lists. -/
def strEndsWith (s suffix : String) : Bool :=
  suffix.data.isSuffixOf s.data

/-- The directory listing filter of both autoHydrate variants: only
files ending in .yaml or .yml are considered. -/
def yamlBackups (backups : List BackupFile) : List BackupFile :=
  backups.filter (fun f => strEndsWith f.name ".yaml" || strEndsWith f.name ".yml")

/-- autoHydrate from the modular engine core (src/engine/src/core/db.js
variant): when the backups directory exists and holds at least one yaml
file, the newest by mtime (stable sort, descending) is picked, the
memory relation is CLEARED (the db.run of the remove statement, per its
comment intent), and the snapshot is hydrated into the empty relation —
with no check whether the database already holds records. -/
def modularAutoHydrate (hashFn : String → String) (dirExists : Bool)
    (backups : List BackupFile) (store : List LegacyRow) : List LegacyRow :=
  if !dirExists then store
  else
    match sortDescBy (fun b => (b.mtime : ℚ)) (yamlBackups backups) with
    | [] => store
    | latest :: _ => hydrate hashFn [] latest.records

/-- autoHydrate from the legacy engine/src/server.js: when the database
already holds at least one memory row the function returns without
touching it; only on an empty database is the newest backup (by mtime)
hydrated. -/
def legacyAutoHydrate (hashFn : String → String) (dirExists : Bool)
    (backups : List BackupFile) (store : List LegacyRow) : List LegacyRow :=
  if !dirExists then store
  else if store.length > 0 then store
  else
    match sortDescBy (fun b => (b.mtime : ℚ)) (yamlBackups backups) with
    | [] => store
    | latest :: _ => hydrate hashFn store latest.records

/-- Substring test on character lists: some suffix of l starts with pat. -/
def listInfix (pat l : List Char) : Bool :=
  l.tails.any (fun t => pat.isPrefixOf t)

/-- Character-wise lower-casing (the JS toLowerCase on ASCII input). -/
def charsToLower (s : String) : List Char :=
  s.data.map Char.toLower

/-- The JS test hay.toLowerCase().includes(needle.toLowerCase()). -/
def strIncludes (hay needle : String) : Bool :=
  listInfix (charsToLower needle) (charsToLower hay)

/-- Fuel-indexed scan for the start positions of pat, advancing past
each match: the successive non-overlapping matches that a global JS
regex for the escaped literal produces via exec. -/
def occAux (pat : List Char) : Nat → List Char → Nat → List Nat
  | 0, _, _ => []
  | _ + 1, [], _ => []
  | fuel + 1, c :: cs, i =>
    if pat.isPrefixOf (c :: cs) then
      i :: occAux pat fuel ((c :: cs).drop pat.length) (i + pat.length)
    else occAux pat fuel cs (i + 1)

/-- Start positions of the non-overlapping occurrences of pat in l. -/
def occurrences (pat l : List Char) : List Nat :=
  if pat.isEmpty then [] else occAux pat l.length l 0

/-- basicSearch from engine/src/server.js: retrieve the memory rows
(bucket-filtered only when a non-empty bucket list is supplied), keep
the rows whose content or source contains the query case-insensitively,
move content matches before source-only matches (stable), and
concatenate source-headed entries until the budget would be exceeded,
finishing with a partial entry cut to the remaining budget. -/
def basicAssembleGo (maxChars : Nat) : List LegacyRow → String → Nat → String × Nat
  | [], ctx, cc => (ctx, cc)
  | r :: rest, ctx, cc =>
    let entry := "### Source: " ++ r.source ++ "\n" ++ r.content ++ "\n\n"
    if cc + entry.length > maxChars then
      (ctx ++ String.mk (entry.data.take (maxChars - cc)), cc)
    else basicAssembleGo maxChars rest (ctx ++ entry) (cc + entry.length)

/-- The budgeted entry loop of basicSearch (see basicAssembleGo). -/
def basicAssemble (rows : List LegacyRow) (maxChars : Nat) : String × Nat :=
  basicAssembleGo maxChars rows "" 0

/-- basicSearch from engine/src/server.js (see basicAssemble for the
final loop).  Returns the context string. -/
def basicSearch (store : List LegacyRow) (query : String) (maxChars : Nat)
    (buckets : Option (List String)) : String :=
  let useBuckets := match buckets with | some b => !b.isEmpty | none => false
  let rows := if useBuckets then store.filter (fun r => (buckets.getD []).contains r.bucket) else store
  let filteredRows := rows.filter (fun r => strIncludes r.content query || strIncludes r.source query)
  let sorted := sortDescBy (fun r => if strIncludes r.content query then (1 : ℚ) else 0) filteredRows
  let ctx := (basicAssemble sorted maxChars).1
  if ctx = "" then "No results found." else ctx

/-- One regex hit inside a candidate document, as collected into allHits
by the /v1/memory/search handler. -/
structure RegexHit where
  id : String
  source : String
  content : String
  start : Nat
  stop : Nat
  score : ℚ
deriving DecidableEq, Repr

/-- A padded character range. -/
structure HitRange where
  start : Nat
  stop : Nat
deriving DecidableEq, Repr

/-- One entry of docsMap: the per-document group of padded ranges. -/
structure DocGroup where
  id : String
  source : String
  score : ℚ
  content : String
  ranges : List HitRange
deriving DecidableEq, Repr

/-- Grouping of allHits into docsMap, preserving first-hit insertion
order of the documents (JS object property order for string keys), with
each hit contributing its padded range. -/
def groupHits (hits : List RegexHit) (padding : Nat) : List DocGroup :=
  hits.foldl (fun acc h =>
    let range : HitRange := ⟨h.start - padding, min h.content.length (h.stop + padding)⟩
    if acc.any (fun d => d.id == h.id) then
      acc.map (fun d => if d.id == h.id then { d with ranges := d.ranges ++ [range] } else d)
    else acc ++ [⟨h.id, h.source, h.score, h.content, [range]⟩]) []

/-- Merging of the sorted ranges of one document: two ranges merge when
the next one starts within 50 characters of the current end. -/
def mergeRanges : List HitRange → List HitRange
  | [] => []
  | first :: rest =>
    let step := rest.foldl
      (fun (acc : List HitRange × HitRange) r =>
        if r.start ≤ acc.2.stop + 50 then (acc.1, ⟨acc.2.start, max acc.2.stop r.stop⟩)
        else (acc.1 ++ [acc.2], r)) ([], first)
    step.1 ++ [step.2]

/-- JS Math.round: floor of x + 1/2. -/
def jsRound (q : ℚ) : ℤ := ⌊q + 1 / 2⌋

/-- Slice of a document body with newlines flattened to spaces, as the
snippet construction substring(start, stop).replace newline by space. -/
def snippetOf (content : String) (r : HitRange) : String :=
  String.mk (((content.data.drop r.start).take (r.stop - r.start)).map
    (fun c => if c = '\n' then ' ' else c))

/-- The snippet loop of the /v1/memory/search handler for one document:
each entry is guarded against the budget before being appended and
counted. -/
def snippetLoop (content : String) (ranges : List HitRange) (maxChars : Nat) :
    String → Nat → String × Nat
  | ctx, total =>
    match ranges with
    | [] => (ctx, total)
    | r :: rest =>
      let entry := "..." ++ snippetOf content r ++ "...\n\n"
      if total + entry.length > maxChars then (ctx, total)
      else snippetLoop content rest maxChars (ctx ++ entry) (total + entry.length)

/-- The final context loop of the /v1/memory/search handler (engine/src/
server.js): documents in score order; per document the ranges are
sorted, merged, headed by a source/score line, and emitted as budgeted
snippets; the --- separator line is appended to the context WITHOUT
being counted against the budget. -/
def buildDocsGo (maxChars : Nat) : List DocGroup → String → Nat → String × Nat
  | [], ctx, total => (ctx, total)
  | doc :: rest, ctx, total =>
    if total ≥ maxChars then (ctx, total)
    else
      let merged := mergeRanges (sortAscBy (fun r => (r.start : ℚ)) doc.ranges)
      let header := "### Source: " ++ doc.source ++ " (Score: " ++ toString (jsRound doc.score) ++ ")\n"
      if total + header.length > maxChars then (ctx, total)
      else
        let st := snippetLoop doc.content merged maxChars (ctx ++ header) (total + header.length)
        buildDocsGo maxChars rest (st.1 ++ "---\n") st.2

/-- The final context construction over the score-sorted documents (see
buildDocsGo for the loop). -/
def buildDocsContext (docs : List DocGroup) (maxChars : Nat) : String × Nat :=
  buildDocsGo maxChars docs "" 0

/-- The POST /v1/memory/search handler of engine/src/server.js.  fts
stands for the FTS index call (query and k); its hits are joined with
the memory relation and bucket-filtered in-query when buckets were
supplied.  When FTS fails or returns no rows the fallback basicSearch
receives the bucket filter — but when the FTS candidates contain no
literal regex occurrence of the query, the fallback is invoked WITHOUT
the bucket filter.  Returns the context string. -/
def memorySearchHandler (fts : String → Nat → Except String (List (String × ℚ)))
    (store : List LegacyRow) (query : String) (maxChars : Nat)
    (bucket : Option String) (buckets : Option (List String)) (deep : Bool) : String :=
  let targetBuckets : Option (List String) :=
    match buckets with
    | some bs => some bs
    | none => match bucket with | some b => some [b] | none => none
  let useBuckets := match targetBuckets with | some bs => !bs.isEmpty | none => false
  let baseK := if deep then 200 else 30
  let k := max baseK ((maxChars + 499) / 500)
  match fts query k with
  | .error _ => basicSearch store query maxChars targetBuckets
  | .ok ftsRaw =>
    let ftsRows :=
      if useBuckets then
        ftsRaw.filter (fun h => store.any (fun r =>
          r.id == h.1 && (targetBuckets.getD []).contains r.bucket))
      else ftsRaw
    if ftsRows.isEmpty then basicSearch store query maxChars targetBuckets
    else
      let ids := ftsRows.map (fun h => h.1)
      let scoreOf := fun (id : String) =>
        (((ftsRows.reverse.find? (fun h => h.1 == id)).map (fun h => h.2)).getD 0)
      let contentRows := store.filter (fun r => ids.contains r.id)
      let pat := charsToLower query
      let allHits := contentRows.flatMap (fun r =>
        (occurrences pat (charsToLower r.content)).map (fun ix =>
          ({ id := r.id, source := r.source, content := r.content,
             start := ix, stop := ix + pat.length, score := scoreOf r.id } : RegexHit)))
      if allHits.isEmpty then basicSearch store query maxChars none
      else
        let rawWindowSize := maxChars / allHits.length
        let windowSize := min (max rawWindowSize 300) 1500
        let padding := windowSize / 2
        let docs := groupHits allHits padding
        let sortedDocs := sortDescBy (fun d => d.score) docs
        (buildDocsContext sortedDocs maxChars).1

/-- An inflated window as consumed by the final budgeting loop of
executeSemanticSearch (src/services/semantic/semantic-search.ts): only
content, source and timestamp are read by the loop. -/
structure InflatedWindow where
  content : String
  source : String
  timestamp : Nat
deriving DecidableEq, Repr

/-- Result of the semantic assembly loop: the context string, the
running character total, and the emitted windows (with their possibly
truncated content fields). -/
structure SemanticAssembly where
  context : String
  totalChars : Nat
  emitted : List InflatedWindow
deriving DecidableEq, Repr

/-- The final budgeting loop of executeSemanticSearch
(src/services/semantic/semantic-search.ts): windows with empty content
are skipped; when the remaining budget is exhausted the loop breaks;
a window larger than the remaining budget is cut to the remaining
budget AND an ellipsis of three characters is appended, and the running
total counts the appended ellipsis as well.  iso stands for the JS
Date toISOString rendering of the timestamp. -/
def semanticGo (iso : Nat → String) (maxChars : Nat) :
    List InflatedWindow → String → Nat → List InflatedWindow → SemanticAssembly
  | [], ctx, total, acc => ⟨ctx, total, acc⟩
  | w :: rest, ctx, total, acc =>
    if w.content.length = 0 then semanticGo iso maxChars rest ctx total acc
    else if total ≥ maxChars then ⟨ctx, total, acc⟩
    else
      let remaining := maxChars - total
      let fc :=
        if w.content.length > remaining then String.mk (w.content.data.take remaining) ++ "..."
        else w.content
      semanticGo iso maxChars rest
        (ctx ++ "[Source: " ++ w.source ++ "](Timestamp: " ++ iso w.timestamp ++ ") \n" ++ fc ++ " \n\n")
        (total + fc.length)
        (acc ++ [{ w with content := fc }])

/-- The final budgeting loop of executeSemanticSearch (see semanticGo). -/
def semanticAssemble (iso : Nat → String) (windows : List InflatedWindow)
    (maxChars : Nat) : SemanticAssembly :=
  semanticGo iso maxChars windows "" 0 []

/-- Modelled from the spec: the Dynamic Density adaptive sizing of the
ContextInflator (spec section 4.E and the repository standard
specs/standards/085-context-inflation.md).  The implementation file
src/services/search/context-inflator.ts is not part of the source
snapshot — only its caller in semantic-search.ts and the standard
document are — so the sizing is modelled from the spec's words: with n
hits and budget B, if n times MIN_VIABLE_SIZE (150) exceeds B the hit
list is cut to floor(B / 150) entries and each window targets 150
characters, otherwise each window targets B / n characters; the padding
is half the target window clamped to [MIN_PADDING, MAX_PADDING] =
[50, 500].  Returns (kept result count, target window, target padding);
real-valued divisions are exact rationals. -/
def adaptiveSizing (n B : Nat) : Nat × ℚ × ℚ :=
  if n * 150 > B then
    let target : ℚ := 150
    (min n (B / 150), target, max 50 (min 500 (target / 2)))
  else
    let target : ℚ := (B : ℚ) / (n : ℚ)
    (n, target, max 50 (min 500 (target / 2)))

/-! Generic lemmas about the stable sort and the dedup fold. -/

theorem insDesc_perm {α : Type} (key : α → ℚ) (x : α) (l : List α) :
    (insDesc key x l).Perm (x :: l) := by
  induction l with
  | nil => simp [insDesc]
  | cons y ys ih =>
    simp only [insDesc]
    split
    · exact List.Perm.refl _
    · exact (ih.cons y).trans (List.Perm.swap x y ys)

theorem sortDescBy_perm {α : Type} (key : α → ℚ) (l : List α) :
    (sortDescBy key l).Perm l := by
  induction l with
  | nil => exact List.Perm.refl _
  | cons x xs ih =>
    simp only [sortDescBy, List.foldr_cons] at *
    exact (insDesc_perm key x _).trans (ih.cons x)

theorem insDesc_sorted {α : Type} (key : α → ℚ) (x : α) (l : List α)
    (h : l.Pairwise (fun a b => key b ≤ key a)) :
    (insDesc key x l).Pairwise (fun a b => key b ≤ key a) := by
  induction l with
  | nil => simp [insDesc]
  | cons y ys ih =>
    rw [List.pairwise_cons] at h
    obtain ⟨hy, hys⟩ := h
    simp only [insDesc]
    split
    · rename_i hle
      refine List.pairwise_cons.mpr ⟨?_, List.pairwise_cons.mpr ⟨hy, hys⟩⟩
      intro b hb
      rcases List.mem_cons.mp hb with rfl | hb2
      · exact hle
      · exact (hy b hb2).trans hle
    · rename_i hgt
      refine List.pairwise_cons.mpr ⟨?_, ih hys⟩
      intro b hb
      have hmem : b = x ∨ b ∈ ys := by
        simpa using (insDesc_perm key x ys).mem_iff.mp hb
      rcases hmem with rfl | hb2
      · exact le_of_lt (lt_of_not_le hgt)
      · exact hy b hb2

theorem sortDescBy_sorted {α : Type} (key : α → ℚ) (l : List α) :
    (sortDescBy key l).Pairwise (fun a b => key b ≤ key a) := by
  induction l with
  | nil => simp [sortDescBy]
  | cons x xs ih =>
    simpa only [sortDescBy, List.foldr_cons] using insDesc_sorted key x _ ih

theorem sortDescBy_head_max {α : Type} (key : α → ℚ) (l : List α) (h : l ≠ []) :
    ∃ m t, sortDescBy key l = m :: t ∧ m ∈ l ∧ ∀ b ∈ l, key b ≤ key m := by
  cases hs : sortDescBy key l with
  | nil =>
    have hperm := sortDescBy_perm key l
    rw [hs] at hperm
    exact absurd hperm.symm.eq_nil h
  | cons m t =>
    have hperm := sortDescBy_perm key l
    rw [hs] at hperm
    have hsorted := sortDescBy_sorted key l
    rw [hs, List.pairwise_cons] at hsorted
    refine ⟨m, t, rfl, hperm.subset (List.mem_cons_self m t), ?_⟩
    intro b hb
    rcases List.mem_cons.mp (hperm.symm.subset hb) with rfl | hb2
    · exact le_refl _
    · exact hsorted.1 b hb2

theorem dedupFold_nodup (l acc : List SearchResult)
    (hacc : (acc.map SearchResult.id).Nodup) :
    ((l.foldl dedupStep acc).map SearchResult.id).Nodup := by
  induction l generalizing acc with
  | nil => simpa using hacc
  | cons r rest ih =>
    rw [List.foldl_cons]
    apply ih
    unfold dedupStep
    by_cases hc : acc.any (fun a => a.id == r.id)
    · rw [if_pos hc]; exact hacc
    · rw [if_neg hc]
      rw [List.map_append, List.nodup_append]
      refine ⟨hacc, List.nodup_singleton _, ?_⟩
      intro i hi
      simp only [List.any_eq_true, not_exists, not_and] at hc
      simp only [List.map_cons, List.map_nil, List.mem_singleton]
      intro hid
      obtain ⟨a, ha, rfl⟩ := List.mem_map.mp hi
      exact hc a ha (by simp [hid])

theorem dedupById_nodup (l : List SearchResult) :
    ((dedupById l).map SearchResult.id).Nodup := by
  simpa [dedupById] using dedupFold_nodup l [] (by simp)

/-- C7 counterexample: two engram-hydrated results carry the same score
100 but timestamps 1 and 9; the final ranking leaves them in insertion
order (timestamp ASCENDING here), so equal-score results are NOT
ordered by timestamp descending as the claim states. -/
theorem c7_counterexample :
    ((executeSearch (fun _ => Except.ok []) (fun _ => ["a", "b"])
        [⟨"a", "x", "s1", 1, [], [], "", "internal"⟩,
         ⟨"b", "y", "s2", 9, [], [], "", "internal"⟩]
        "q" none none 1000 "all").map
      (fun r => (r.id, r.timestamp, r.score))) =
      [("a", 1, (100 : ℚ)), ("b", 9, 100)] ∧ (1 : Nat) < 9 := by
  constructor
  · decide
  · decide

/-- C7 (amended): the final result list of executeSearch is the merge of
engram results, anchors and neighbors deduplicated by id and stably
sorted by score descending; equal-score results keep their merge
(insertion) order rather than being tie-broken by timestamp, and the
ranking is a pure function of its inputs, so repeating the same query on
an unchanged store yields the identical ordered list.  Formally: the
output is pairwise sorted by score descending and its ids are free of
duplicates. -/
theorem c7_amended (fts : String → Except String (List (String × ℚ)))
    (engram : String → List String) (store : List MemoryRow)
    (query : String) (bucket : Option String) (buckets : Option (List String))
    (maxChars : Nat) (mode : String) :
    (executeSearch fts engram store query bucket buckets maxChars mode).Pairwise
      (fun a b => b.score ≤ a.score) ∧
    ((executeSearch fts engram store query bucket buckets maxChars mode).map
      SearchResult.id).Nodup := by
  constructor
  · simp only [executeSearch]
    exact sortDescBy_sorted _ _
  · simp only [executeSearch]
    exact ((sortDescBy_perm _ _).map _).nodup_iff.mpr (dedupById_nodup _)

/-- C4 counterexample: in sovereign mode with two FTS anchors of equal
raw score 10, the record whose provenance is the string quarantine stays
in the results (score 5, scaled by one half) instead of being filtered
out, and the record with provenance internal is also scaled by one half
(score 5) instead of by 3.0 — the boost keys on the provenance value
sovereign, not internal. -/
theorem c4_counterexample :
    ((executeSearch (fun _ => Except.ok [("q1", (10 : ℚ)), ("i1", 10)]) (fun _ => [])
        [⟨"q1", "shared text", "q.md", 5, ["core"], ["t"], "", "quarantine"⟩,
         ⟨"i1", "shared text", "i.md", 7, ["core"], ["t"], "", "internal"⟩]
        "shared" none none 1000 "sovereign").map
      (fun r => (r.provenance, r.score))) =
      [("quarantine", (5 : ℚ)), ("internal", 5)] ∧ (5 : ℚ) ≠ 10 * 3 := by
  constructor
  · simp +decide [executeSearch, runTraditionalSearch, sanitizeFtsQuery, wordsBy, wordsByAux,
      isAlnumChar, listInter, boostAnchor, sortDescBy, insDesc, dedupById, dedupStep,
      jsDedup, MemoryRow.toResult, neighborWalk]
    norm_num [insDesc, dedupStep]
  · norm_num

/-- C4 (amended): in provenance mode sovereign the anchor boost keys on
the stored provenance STRING sovereign: such records have their FTS
score multiplied by 3.0 and every other record — internal, external and
quarantine alike — by 0.5; no quarantine filtering occurs.
Consequently, for two anchors tied on a positive raw FTS score, one with
provenance sovereign ends strictly above one with any other provenance
(in particular external). -/
theorem c4_amended (r rS rE : SearchResult) (s : ℚ)
    (hS : rS.provenance = "sovereign") (hE : rE.provenance ≠ "sovereign")
    (hsS : rS.score = s) (hsE : rE.score = s) (hpos : 0 < s) :
    (boostAnchor "sovereign" r).score =
      (if r.provenance = "sovereign" then r.score * 3 else r.score * (1 / 2)) ∧
    (boostAnchor "sovereign" rE).score < (boostAnchor "sovereign" rS).score := by
  constructor
  · unfold boostAnchor
    rw [if_pos rfl]
    split
    · rfl
    · rfl
  · unfold boostAnchor
    rw [if_pos rfl, if_pos rfl, if_pos hS, if_neg hE]
    simp only [hsS, hsE]
    nlinarith

/-- Witness for c4_amended at concrete records tied on raw score 10. -/
theorem c4_amended_witness :
    (boostAnchor "sovereign" ⟨"x", "", "", 0, [], [], "", "quarantine", 10⟩).score =
      (if ("quarantine" : String) = "sovereign" then (10 : ℚ) * 3 else (10 : ℚ) * (1 / 2)) ∧
    (boostAnchor "sovereign" ⟨"e", "", "", 0, [], [], "", "external", 10⟩).score <
      (boostAnchor "sovereign" ⟨"s", "", "", 0, [], [], "", "sovereign", 10⟩).score :=
  c4_amended ⟨"x", "", "", 0, [], [], "", "quarantine", 10⟩
    ⟨"s", "", "", 0, [], [], "", "sovereign", 10⟩
    ⟨"e", "", "", 0, [], [], "", "external", 10⟩ 10
    (by decide) (by decide) (by decide) (by decide) (by norm_num)

theorem neighborWalk_length_le (store : List MemoryRow) (tags excl : List String)
    (count : Nat) : (neighborWalk store tags excl count).length ≤ count := by
  simp only [neighborWalk]
  split
  · simp
  · split
    · simp
    · simp

theorem neighborWalk_mem (store : List MemoryRow) (tags excl : List String) (count : Nat)
    (r : SearchResult) (h : r ∈ neighborWalk store tags excl count) :
    0 < (listInter r.tags ((jsDedup tags).filter (fun t => t.length > 0))).length ∧
    excl.contains r.id = false ∧
    r.score = 50 + 10 * ((listInter r.tags ((jsDedup tags).filter (fun t => t.length > 0))).length : ℚ) := by
  simp only [neighborWalk] at h
  split at h
  · simp at h
  · split at h
    · simp at h
    · have h3 := List.take_subset _ _ h
      obtain ⟨n, hn, rfl⟩ := List.mem_map.mp h3
      obtain ⟨hn1, hn2⟩ := List.mem_filter.mp hn
      obtain ⟨m, hm, rfl⟩ := List.mem_map.mp hn1
      have hm2 := List.take_subset _ _ hm
      have hcond := (List.mem_filter.mp hm2).2
      simp only [MemoryRow.toResult] at hcond hn2 ⊢
      refine ⟨?_, ?_, trivial⟩
      · have : ¬ (listInter m.tags ((jsDedup tags).filter (fun t => t.length > 0))).isEmpty := by
          simpa using hcond
        simpa [List.isEmpty_iff, List.length_pos] using this
      · simpa using hn2

/-- C9 counterexample: two molecules share tags with the harvested set
t, u; the first in relation order shares one tag (score 60), the second
shares two (score 70).  With neighbor_target 1 the walk keeps the FIRST
candidate (score 60), not the top-scoring one (score 70): the code
slices the candidate list without sorting it by score. -/
theorem c9_counterexample :
    ((neighborWalk
        [⟨"a", "ca", "sa", 1, [], ["t"], "", "internal"⟩,
         ⟨"b", "cb", "sb", 2, [], ["t", "u"], "", "internal"⟩]
        ["t", "u"] [] 1).map (fun r => (r.id, r.score))) = [("a", (60 : ℚ))] ∧
    ((neighborWalk
        [⟨"a", "ca", "sa", 1, [], ["t"], "", "internal"⟩,
         ⟨"b", "cb", "sb", 2, [], ["t", "u"], "", "internal"⟩]
        ["t", "u"] [] 2).map (fun r => (r.id, r.score))) =
      [("a", (60 : ℚ)), ("b", 70)] ∧ (60 : ℚ) < 70 := by
  refine ⟨?_, ?_, by norm_num⟩
  · simp +decide [neighborWalk, jsDedup, listInter, MemoryRow.toResult]
    norm_num
  · simp +decide [neighborWalk, jsDedup, listInter, MemoryRow.toResult]
    norm_num

/-- C9 (amended): every neighbor returned by the walk has a non-empty
intersection between its tags and the deduplicated non-empty harvested
tags, an id outside the excluded set, and score 50 + 10 times the
number of shared tags (the sovereign times-1.5 boost is applied
afterwards in executeSearch only when the stored provenance string is
sovereign); at most neighbor_target results are kept, namely the FIRST
neighbor_target candidates in relation order — not the top by score. -/
theorem c9_amended (store : List MemoryRow) (tags excl : List String) (count : Nat)
    (r : SearchResult) (h : r ∈ neighborWalk store tags excl count) :
    (neighborWalk store tags excl count).length ≤ count ∧
    0 < (listInter r.tags ((jsDedup tags).filter (fun t => t.length > 0))).length ∧
    excl.contains r.id = false ∧
    r.score = 50 + 10 * ((listInter r.tags ((jsDedup tags).filter (fun t => t.length > 0))).length : ℚ) :=
  ⟨neighborWalk_length_le store tags excl count, neighborWalk_mem store tags excl count r h⟩

/-- Witness for c9_amended on a concrete store with an actual member of
the walk result. -/
theorem c9_amended_witness :
    (neighborWalk [⟨"a", "ca", "sa", 1, [], ["t"], "", "internal"⟩] ["t"] [] 1).length ≤ 1 ∧
    0 < (listInter (⟨"a", "ca", "sa", 1, [], ["t"], "", "internal", 60⟩ : SearchResult).tags
      ((jsDedup ["t"]).filter (fun t => t.length > 0))).length ∧
    ([] : List String).contains
      (⟨"a", "ca", "sa", 1, [], ["t"], "", "internal", 60⟩ : SearchResult).id = false ∧
    (⟨"a", "ca", "sa", 1, [], ["t"], "", "internal", 60⟩ : SearchResult).score =
      50 + 10 * ((listInter (⟨"a", "ca", "sa", 1, [], ["t"], "", "internal", 60⟩ : SearchResult).tags
        ((jsDedup ["t"]).filter (fun t => t.length > 0))).length : ℚ) :=
  c9_amended [⟨"a", "ca", "sa", 1, [], ["t"], "", "internal"⟩] ["t"] [] 1
    ⟨"a", "ca", "sa", 1, [], ["t"], "", "internal", 60⟩
    (by simp +decide [neighborWalk, jsDedup, listInter, MemoryRow.toResult]
        norm_num)

theorem wordsByAux_all (p : Char → Bool) :
    ∀ (fuel : Nat) (l : List Char), (∀ c ∈ l, p c = true) → wordsByAux p fuel l = [] := by
  intro fuel
  induction fuel with
  | zero => intro l _; rfl
  | succ n ih =>
    intro l h
    cases l with
    | nil => rfl
    | cons c cs =>
      have hc : p c = true := h c (List.mem_cons_self c cs)
      simp only [wordsByAux, hc, if_pos]
      exact ih cs (fun d hd => h d (List.mem_cons_of_mem c hd))

theorem sanitizeFtsQuery_eq_empty (q : String) (h : ∀ c ∈ q.data, isAlnumChar c = false) :
    sanitizeFtsQuery q = "" := by
  have hall : ∀ c ∈ q.data.map (fun c => if isAlnumChar c || c.isWhitespace then c else ' '),
      c.isWhitespace = true := by
    intro c hc
    obtain ⟨d, hd, rfl⟩ := List.mem_map.mp hc
    by_cases hw : d.isWhitespace
    · simp [h d hd, hw]
    · simp [h d hd, hw]
  simp only [sanitizeFtsQuery, wordsBy, wordsByAux_all _ _ _ hall]
  rfl

theorem runTraditionalSearch_sanitized_empty
    (fts : String → Except String (List (String × ℚ))) (store : List MemoryRow)
    (q : String) (buckets : List String) (h : sanitizeFtsQuery q = "") :
    runTraditionalSearch fts store q buckets = [] := by
  simp [runTraditionalSearch, h]

/-- C10: for a query with no ASCII alphanumeric characters, the FTS
sanitization leaves the empty string and runTraditionalSearch returns
the empty anchor list without ever invoking the FTS engine (the result
is the same for EVERY fts function, including a failing one, and no
error escapes); consequently executeSearch does not depend on the FTS
engine at all for such a query, completing normally with the
engram-derived results and the neighbors walked from their tags alone. -/
theorem c10_non_alnum_query (fts fts' : String → Except String (List (String × ℚ)))
    (engram : String → List String) (store : List MemoryRow)
    (q : String) (bks : List String) (bucket : Option String)
    (buckets : Option (List String)) (mc : Nat) (mode : String)
    (h : ∀ c ∈ q.data, isAlnumChar c = false) :
    sanitizeFtsQuery q = "" ∧
    runTraditionalSearch fts store q bks = [] ∧
    executeSearch fts engram store q bucket buckets mc mode =
      executeSearch fts' engram store q bucket buckets mc mode := by
  have hs := sanitizeFtsQuery_eq_empty q h
  refine ⟨hs, runTraditionalSearch_sanitized_empty _ _ _ _ hs, ?_⟩
  have e1 : ∀ b, runTraditionalSearch fts store q b = [] :=
    fun b => runTraditionalSearch_sanitized_empty _ _ _ _ hs
  have e2 : ∀ b, runTraditionalSearch fts' store q b = [] :=
    fun b => runTraditionalSearch_sanitized_empty _ _ _ _ hs
  simp only [executeSearch, e1, e2]

/-- Witness for c10_non_alnum_query on the concrete query of symbols,
with a failing FTS engine on one side and a succeeding one on the
other. -/
theorem c10_witness :
    sanitizeFtsQuery "@#$!" = "" ∧
    runTraditionalSearch (fun _ => Except.error "boom")
      [⟨"z", "c", "s", 3, ["core"], ["t"], "", "internal"⟩] "@#$!" ["B"] = [] ∧
    executeSearch (fun _ => Except.error "boom") (fun _ => ["z"])
      [⟨"z", "c", "s", 3, ["core"], ["t"], "", "internal"⟩] "@#$!" none none 1000 "all" =
    executeSearch (fun _ => Except.ok [("z", 100)]) (fun _ => ["z"])
      [⟨"z", "c", "s", 3, ["core"], ["t"], "", "internal"⟩] "@#$!" none none 1000 "all" :=
  c10_non_alnum_query (fun _ => Except.error "boom") (fun _ => Except.ok [("z", 100)])
    (fun _ => ["z"]) [⟨"z", "c", "s", 3, ["core"], ["t"], "", "internal"⟩]
    "@#$!" ["B"] none none 1000 "all" (by decide)

/-- C1 counterexample: the store already holds a row whose hash equals
the digest of the content alpha (under bucket A), yet the file-watcher
ingest of the same content into the root (bucket core) INSERTS a second
row: its dedup check is keyed on the pair (hash, bucket), not on the
hash globally as the claim states.  The identity function stands in for
MD5: both hashings are of the same content, so only determinism of the
digest is used. -/
theorem c1_counterexample :
    (watcherIngest (fun s => s) (fun s => s) 6
      [⟨"file_X", 5, "alpha", "A/f.txt", ".txt", "alpha", "A"⟩]
      "alpha" "g.txt" ["g.txt"] ".txt").length = 2 ∧
    ([⟨"file_X", 5, "alpha", "A/f.txt", ".txt", "alpha", "A"⟩] : List LegacyRow).any
      (fun r => r.hash == (fun s : String => s) "alpha") = true := by
  constructor
  · decide
  · decide

/-- C1 (amended): the direct ingest API (ingestContent) deduplicates by
a GLOBAL hash lookup: ingesting content twice returns the same id both
times, with the second call inserting nothing and reporting skipped
together with the first call's id.  The file-watcher ingest path,
however, deduplicates by the PAIR (hash, bucket): it skips only when a
row with the same hash exists in the same bucket, and otherwise puts a
new row even when the same hash exists under another bucket. -/
theorem c1_amended (hashFn idOf : String → String) (id1 id2 : String)
    (t1 t2 now : Nat) (store : List IngestRow) (wstore : List LegacyRow)
    (C fn src ty relPath ext : String) (bks : List String) (parts : List String)
    (hC : C ≠ "")
    (hfresh : ∀ r ∈ store, r.hash ≠ hashFn C)
    (hdup : ∃ r ∈ wstore, r.hash = hashFn C ∧
      r.bucket = (if parts.length > 1 then parts.headD "core" else "core")) :
    (∃ st1, ingestContent hashFn id1 t1 store C fn src ty bks = .ok ⟨"success", id1, st1⟩ ∧
      ingestContent hashFn id2 t2 st1 C fn src ty bks = .ok ⟨"skipped", id1, st1⟩) ∧
    watcherIngest hashFn idOf now wstore C relPath parts ext = wstore := by
  constructor
  · have hnone : store.find? (fun r => r.hash == hashFn C) = none :=
      List.find?_eq_none.mpr (fun r hr => by simpa using hfresh r hr)
    refine ⟨store ++ [⟨id1, t1, C,
      if src ≠ "" then src else if fn ≠ "" then fn else "unknown", ty, hashFn C, bks⟩], ?_, ?_⟩
    · simp only [ingestContent, if_neg hC, hnone]
    · simp only [ingestContent, if_neg hC]
      rw [List.find?_append, hnone]
      simp
  · obtain ⟨r, hr, hhash, hbucket⟩ := hdup
    have hmem : r ∈ wstore.filter (fun r => r.hash == hashFn C &&
        r.bucket == (if parts.length > 1 then parts.headD "core" else "core")) :=
      List.mem_filter.mpr ⟨hr, by simp [hhash, hbucket]⟩
    have hne2 := List.ne_nil_of_mem hmem
    simp only [watcherIngest]
    rw [if_pos (by simpa [List.isEmpty_iff] using hne2)]

/-- Witness for c1_amended: a fresh direct ingest of alpha into an empty
store, ingested again, and the watcher path confronted with an existing
(hash alpha, bucket core) row. -/
theorem c1_amended_witness :
    (∃ st1, ingestContent (fun s => s) "doc1" 1 [] "alpha" "f.md" "src.md" "text" ["core"] =
        .ok ⟨"success", "doc1", st1⟩ ∧
      ingestContent (fun s => s) "doc2" 2 st1 "alpha" "f.md" "src.md" "text" ["core"] =
        .ok ⟨"skipped", "doc1", st1⟩) ∧
    watcherIngest (fun s => s) (fun s => s) 3
      [⟨"w1", 1, "alpha", "s", "t", "alpha", "core"⟩] "alpha" "x.txt" ["x.txt"] ".txt" =
      [⟨"w1", 1, "alpha", "s", "t", "alpha", "core"⟩] :=
  c1_amended (fun s => s) (fun s => s) "doc1" "doc2" 1 2 3 []
    [⟨"w1", 1, "alpha", "s", "t", "alpha", "core"⟩]
    "alpha" "f.md" "src.md" "text" "x.txt" ".txt" ["core"] ["x.txt"]
    (by decide) (by decide) (by decide)

theorem hydrate_fresh (hashFn : String → String) (recs : List SnapRecord)
    (st : List LegacyRow) (hnodup : (recs.map SnapRecord.id).Nodup)
    (hfresh : ∀ rec ∈ recs, ∀ s ∈ st, s.id ≠ rec.id) :
    hydrate hashFn st recs = st ++ recs.map (hydrateRecord hashFn) := by
  induction recs generalizing st with
  | nil => simp [hydrate]
  | cons rec rest ih =>
    have hput : putRow st (hydrateRecord hashFn rec) = st ++ [hydrateRecord hashFn rec] := by
      unfold putRow
      rw [if_neg]
      simp only [List.any_eq_true, not_exists, not_and]
      intro s hs
      have := hfresh rec (List.mem_cons_self rec rest) s hs
      simpa [hydrateRecord] using this
    have hnodup2 : (rest.map SnapRecord.id).Nodup := (List.nodup_cons.mp hnodup).2
    have hid : rec.id ∉ rest.map SnapRecord.id := (List.nodup_cons.mp hnodup).1
    have hfresh2 : ∀ rec2 ∈ rest, ∀ s ∈ st ++ [hydrateRecord hashFn rec], s.id ≠ rec2.id := by
      intro rec2 h2 s hs
      rcases List.mem_append.mp hs with hs1 | hs2
      · exact hfresh rec2 (List.mem_cons_of_mem rec h2) s hs1
      · rw [List.mem_singleton.mp hs2]
        show (hydrateRecord hashFn rec).id ≠ rec2.id
        simp only [hydrateRecord]
        intro he
        exact hid (he ▸ List.mem_map_of_mem SnapRecord.id h2)
    calc hydrate hashFn st (rec :: rest)
        = hydrate hashFn (st ++ [hydrateRecord hashFn rec]) rest := by
          simp only [hydrate, List.foldl_cons, hput]
      _ = (st ++ [hydrateRecord hashFn rec]) ++ rest.map (hydrateRecord hashFn) :=
          ih _ hnodup2 hfresh2
      _ = st ++ (rec :: rest).map (hydrateRecord hashFn) := by simp

/-- C5: hydrating an empty store from the record sequence produced by
the backup export reproduces exactly the original rows of the memory
relation — all seven snapshot fields, content included, byte-exactly —
provided the exported rows carry distinct ids (the relation is keyed on
id, so they do); and on hydrate a record missing its hash gets
md5(content) backfilled while a record missing its bucket defaults to
core. -/
theorem c5_snapshot_roundtrip (hashFn : String → String) (store : List LegacyRow)
    (rec : SnapRecord) (h : (store.map LegacyRow.id).Nodup) :
    hydrate hashFn [] (eject store) = store ∧
    (rec.hash = none → (hydrateRecord hashFn rec).hash = hashFn rec.content) ∧
    (rec.bucket = none → (hydrateRecord hashFn rec).bucket = "core") ∧
    (hydrateRecord hashFn rec).content = rec.content := by
  refine ⟨?_, ?_, ?_, rfl⟩
  · have hids : ((eject store).map SnapRecord.id).Nodup := by
      simpa [eject, List.map_map, Function.comp] using h
    rw [hydrate_fresh hashFn (eject store) [] hids (by simp)]
    simp only [List.nil_append, eject, List.map_map]
    exact List.map_id store
  · intro hh; simp [hydrateRecord, hh]
  · intro hb; simp [hydrateRecord, hb]

/-- Witness for c5_snapshot_roundtrip on a concrete two-row store with
distinct ids and a concrete record lacking hash and bucket. -/
theorem c5_witness :
    hydrate (fun s => s) []
      (eject [⟨"r1", 1, "aa", "s1", "t", "h1", "core"⟩,
              ⟨"r2", 2, "bb", "s2", "t", "h2", "work"⟩]) =
      [⟨"r1", 1, "aa", "s1", "t", "h1", "core"⟩,
       ⟨"r2", 2, "bb", "s2", "t", "h2", "work"⟩] ∧
    ((⟨"r3", 3, "cc", "s3", "t", none, none⟩ : SnapRecord).hash = none →
      (hydrateRecord (fun s => s) ⟨"r3", 3, "cc", "s3", "t", none, none⟩).hash =
        (fun s : String => s) "cc") ∧
    ((⟨"r3", 3, "cc", "s3", "t", none, none⟩ : SnapRecord).bucket = none →
      (hydrateRecord (fun s => s) ⟨"r3", 3, "cc", "s3", "t", none, none⟩).bucket = "core") ∧
    (hydrateRecord (fun s => s) (⟨"r3", 3, "cc", "s3", "t", none, none⟩ : SnapRecord)).content = "cc" :=
  c5_snapshot_roundtrip (fun s => s)
    [⟨"r1", 1, "aa", "s1", "t", "h1", "core"⟩, ⟨"r2", 2, "bb", "s2", "t", "h2", "work"⟩]
    ⟨"r3", 3, "cc", "s3", "t", none, none⟩ (by decide)

/-- C6 counterexample: the modular autoHydrate (core/db.js) runs with a
NON-EMPTY database (one existing row) and one backup file present; it
clears the database and reloads the backup, so the pre-existing row is
lost — contradicting the claim that a non-empty database makes
auto-hydration perform no action. -/
theorem c6_counterexample :
    modularAutoHydrate (fun s => s) true
      [⟨"b.yaml", 10, [⟨"r2", 2, "new", "s2", "t", some "h2", some "core"⟩]⟩]
      [⟨"r1", 1, "old", "s1", "t", "h1", "core"⟩] =
      [⟨"r2", 2, "new", "s2", "t", "h2", "core"⟩] ∧
    ([⟨"r1", 1, "old", "s1", "t", "h1", "core"⟩] : List LegacyRow) ≠ [] ∧
    (⟨"r1", 1, "old", "s1", "t", "h1", "core"⟩ : LegacyRow) ∉
      [(⟨"r2", 2, "new", "s2", "t", "h2", "core"⟩ : LegacyRow)] := by
  refine ⟨by decide, by decide, by decide⟩

/-- C6 (amended): the LEGACY autoHydrate (engine/src/server.js) behaves
as claimed: with at least one memory row present it performs no action,
and on an empty database it loads the single newest yaml backup by
modification time through hydrate, which bypasses deduplication.  The
MODULAR autoHydrate (core/db.js), by contrast, never checks emptiness:
whenever the backups directory holds a yaml file it clears the memory
relation and reloads the newest backup, regardless of what the database
contained. -/
theorem c6_amended (hashFn : String → String) (dirExists : Bool)
    (backups : List BackupFile) (store store2 : List LegacyRow)
    (hne : store ≠ []) (hy : yamlBackups backups ≠ []) :
    legacyAutoHydrate hashFn dirExists backups store = store ∧
    (∃ latest ∈ yamlBackups backups,
      (∀ b ∈ yamlBackups backups, b.mtime ≤ latest.mtime) ∧
      legacyAutoHydrate hashFn true backups [] = hydrate hashFn [] latest.records ∧
      modularAutoHydrate hashFn true backups store2 = hydrate hashFn [] latest.records) := by
  constructor
  · cases dirExists with
    | false => simp [legacyAutoHydrate]
    | true =>
      have : store.length > 0 := List.length_pos.mpr hne
      simp [legacyAutoHydrate, this]
  · obtain ⟨m, t, hs, hm, hmax⟩ :=
      sortDescBy_head_max (fun b => (b.mtime : ℚ)) (yamlBackups backups) hy
    refine ⟨m, hm, ?_, ?_, ?_⟩
    · intro b hb
      exact_mod_cast hmax b hb
    · simp [legacyAutoHydrate, hs]
    · simp [modularAutoHydrate, hs]

/-- Witness for c6_amended on a concrete non-empty store and two
backups with distinct mtimes. -/
theorem c6_witness :
    legacyAutoHydrate (fun s => s) true
      [⟨"old.yaml", 4, [⟨"o", 1, "x", "s", "t", some "hx", some "core"⟩]⟩,
       ⟨"new.yaml", 9, [⟨"n", 2, "y", "s", "t", some "hy", some "core"⟩]⟩]
      [⟨"r1", 1, "old", "s1", "t", "h1", "core"⟩] =
      [⟨"r1", 1, "old", "s1", "t", "h1", "core"⟩] ∧
    (∃ latest ∈ yamlBackups
        [⟨"old.yaml", 4, [⟨"o", 1, "x", "s", "t", some "hx", some "core"⟩]⟩,
         ⟨"new.yaml", 9, [⟨"n", 2, "y", "s", "t", some "hy", some "core"⟩]⟩],
      (∀ b ∈ yamlBackups
          [⟨"old.yaml", 4, [⟨"o", 1, "x", "s", "t", some "hx", some "core"⟩]⟩,
           ⟨"new.yaml", 9, [⟨"n", 2, "y", "s", "t", some "hy", some "core"⟩]⟩],
        b.mtime ≤ latest.mtime) ∧
      legacyAutoHydrate (fun s => s) true
        [⟨"old.yaml", 4, [⟨"o", 1, "x", "s", "t", some "hx", some "core"⟩]⟩,
         ⟨"new.yaml", 9, [⟨"n", 2, "y", "s", "t", some "hy", some "core"⟩]⟩] [] =
        hydrate (fun s => s) [] latest.records ∧
      modularAutoHydrate (fun s => s) true
        [⟨"old.yaml", 4, [⟨"o", 1, "x", "s", "t", some "hx", some "core"⟩]⟩,
         ⟨"new.yaml", 9, [⟨"n", 2, "y", "s", "t", some "hy", some "core"⟩]⟩]
        [⟨"z", 7, "zz", "sz", "t", "hz", "core"⟩] =
        hydrate (fun s => s) [] latest.records) :=
  c6_amended (fun s => s) true
    [⟨"old.yaml", 4, [⟨"o", 1, "x", "s", "t", some "hx", some "core"⟩]⟩,
     ⟨"new.yaml", 9, [⟨"n", 2, "y", "s", "t", some "hy", some "core"⟩]⟩]
    [⟨"r1", 1, "old", "s1", "t", "h1", "core"⟩]
    [⟨"z", 7, "zz", "sz", "t", "hz", "core"⟩]
    (by decide) (by decide)

theorem semanticGo_totalChars_le (iso : Nat → String) (mc : Nat) :
    ∀ (ws : List InflatedWindow) (ctx : String) (total : Nat) (acc : List InflatedWindow),
      total ≤ mc + 3 → (semanticGo iso mc ws ctx total acc).totalChars ≤ mc + 3 := by
  intro ws
  induction ws with
  | nil => intro ctx total acc h; simpa [semanticGo] using h
  | cons w rest ih =>
    intro ctx total acc h
    simp only [semanticGo]
    by_cases h0 : w.content.length = 0
    · rw [if_pos h0]; exact ih _ _ _ h
    · rw [if_neg h0]
      by_cases h1 : total ≥ mc
      · rw [if_pos h1]; exact h
      · rw [if_neg h1]
        apply ih
        by_cases h2 : w.content.length > mc - total
        · rw [if_pos h2]
          have hlen : (String.mk (w.content.data.take (mc - total)) ++ "...").length
              = (mc - total) + 3 := by
            rw [String.length_append]
            have hc2 : mc - total ≤ w.content.data.length := Nat.le_of_lt h2
            show (w.content.data.take (mc - total)).length + ("...".length) = mc - total + 3
            rw [List.length_take, min_eq_left hc2]
            rfl
          rw [hlen]
          omega
        · rw [if_neg h2]
          have := le_of_not_gt h2
          omega

theorem semanticGo_sum (iso : Nat → String) (mc : Nat) :
    ∀ (ws : List InflatedWindow) (ctx : String) (total : Nat) (acc : List InflatedWindow),
      (semanticGo iso mc ws ctx total acc).totalChars +
        (acc.map (fun w => w.content.length)).sum
      = total + (((semanticGo iso mc ws ctx total acc).emitted.map
          (fun w => w.content.length)).sum) := by
  intro ws
  induction ws with
  | nil => intro ctx total acc; simp [semanticGo]
  | cons w rest ih =>
    intro ctx total acc
    simp only [semanticGo]
    by_cases h0 : w.content.length = 0
    · rw [if_pos h0]; exact ih _ _ _
    · rw [if_neg h0]
      by_cases h1 : total ≥ mc
      · rw [if_pos h1]
      · rw [if_neg h1]
        have h2 := ih
          (ctx ++ "[Source: " ++ w.source ++ "](Timestamp: " ++ iso w.timestamp ++ ") \n" ++
            (if w.content.length > mc - total then
              String.mk (w.content.data.take (mc - total)) ++ "..." else w.content) ++ " \n\n")
          (total +
            (if w.content.length > mc - total then
              String.mk (w.content.data.take (mc - total)) ++ "..." else w.content).length)
          (acc ++ [{ w with content :=
            (if w.content.length > mc - total then
              String.mk (w.content.data.take (mc - total)) ++ "..." else w.content) }])
        simp only [List.map_append, List.sum_append, List.map_cons, List.map_nil,
          List.sum_cons, List.sum_nil] at h2 ⊢
        omega

theorem snippetLoop_le (content : String) (mc : Nat) :
    ∀ (ranges : List HitRange) (ctx : String) (total : Nat), total ≤ mc →
      (snippetLoop content ranges mc ctx total).2 ≤ mc := by
  intro ranges
  induction ranges with
  | nil => intro ctx total h; simpa [snippetLoop] using h
  | cons r rest ih =>
    intro ctx total h
    simp only [snippetLoop]
    by_cases hb : total + ("..." ++ snippetOf content r ++ "...\n\n").length > mc
    · rw [if_pos hb]; exact h
    · rw [if_neg hb]; exact ih _ _ (le_of_not_gt hb)

theorem buildDocsGo_le (mc : Nat) :
    ∀ (docs : List DocGroup) (ctx : String) (total : Nat), total ≤ mc →
      (buildDocsGo mc docs ctx total).2 ≤ mc := by
  intro docs
  induction docs with
  | nil => intro ctx total h; simpa [buildDocsGo] using h
  | cons doc rest ih =>
    intro ctx total h
    simp only [buildDocsGo]
    by_cases h1 : total ≥ mc
    · rw [if_pos h1]; exact h
    · rw [if_neg h1]
      by_cases h2 : total + ("### Source: " ++ doc.source ++ " (Score: " ++
          toString (jsRound doc.score) ++ ")\n").length > mc
      · rw [if_pos h2]; exact h
      · rw [if_neg h2]
        exact ih _ _ (snippetLoop_le _ _ _ _ _ (le_of_not_gt h2))

/-- C2 counterexample: one inflated window of five characters against a
budget of three: the truncation cuts the content to the remaining three
characters and then appends the three-character ellipsis, and the
running character count — which equals the summed lengths of the
emitted windows' content fields — reaches 6 > 3, exceeding max_chars. -/
theorem c2_counterexample :
    (semanticAssemble (fun _ => "1970-01-01T00:00:00.000Z")
      [⟨"aaaaa", "s", 0⟩] 3).totalChars = 6 ∧
    ¬ ((semanticAssemble (fun _ => "1970-01-01T00:00:00.000Z")
      [⟨"aaaaa", "s", 0⟩] 3).totalChars ≤ 3) := by
  constructor
  · decide
  · decide

/-- C2 (amended): in the semantic-search assembly loop the running
character count (which equals the sum of the lengths of the emitted
windows' content fields) never exceeds max_chars + 3: a window
truncated to the remaining budget carries an appended three-character
ellipsis that is counted after the budget check, so the total can
overshoot by at most those three characters; without truncation the
budget is respected exactly.  The legacy /v1/memory/search assembly
loop counts every header and snippet before appending and its
accumulated count never exceeds max_chars. -/
theorem c2_amended (iso : Nat → String) (windows : List InflatedWindow)
    (docs : List DocGroup) (maxChars : Nat) :
    (semanticAssemble iso windows maxChars).totalChars ≤ maxChars + 3 ∧
    ((semanticAssemble iso windows maxChars).emitted.map
      (fun w => w.content.length)).sum = (semanticAssemble iso windows maxChars).totalChars ∧
    (buildDocsContext docs maxChars).2 ≤ maxChars := by
  refine ⟨semanticGo_totalChars_le iso maxChars windows "" 0 [] (by omega), ?_,
    buildDocsGo_le maxChars docs "" 0 (by omega)⟩
  have := semanticGo_sum iso maxChars windows "" 0 []
  simp only [List.map_nil, List.sum_nil, Nat.add_zero, Nat.zero_add] at this
  exact this.symm

/-- C3: evaluation of the /v1/memory/search handler at the failing
input.  The store holds a bucket-A record (content: hello there world)
and a bucket-B record (content: hello world).  Searching hello world
with buckets ["A"]: FTS returns candidates, the bucket filter keeps the
A record, but the literal regex finds no occurrence of the full phrase
in it, so allHits is empty and the code falls back to basicSearch
WITHOUT the bucket filter — returning the bucket-B record's content,
which violates bucket isolation exactly as the spec forbids. -/
theorem c3_bucket_filter_dropped :
    memorySearchHandler (fun _ _ => Except.ok [("id1", 2), ("id2", 3)])
      [⟨"id1", 1, "hello there world", "a.md", ".md", "h1", "A"⟩,
       ⟨"id2", 2, "hello world", "b.md", ".md", "h2", "B"⟩]
      "hello world" 5000 none (some ["A"]) false
      = "### Source: b.md\nhello world\n\n" ∧
    (⟨"id2", 2, "hello world", "b.md", ".md", "h2", "B"⟩ : LegacyRow).bucket ∉ ["A"] := by
  constructor
  · decide
  · decide

/-- C8: the Dynamic Density adaptive sizing (modelled from the spec, the
implementation file being absent from the snapshot): when n hits at the
minimum viable size of 150 characters cannot fit the budget B, the hit
list is cut to floor(B / 150) entries and each window targets exactly
150 characters; otherwise each window targets B / n characters; in both
cases the padding is target / 2 clamped to [50, 500], hence itself
within [50, 500]. -/
theorem c8_adaptive_sizing (n B : Nat) :
    (n * 150 > B →
      (adaptiveSizing n B).1 = B / 150 ∧ (adaptiveSizing n B).2.1 = 150) ∧
    (¬ n * 150 > B →
      (adaptiveSizing n B).1 = n ∧ (adaptiveSizing n B).2.1 = (B : ℚ) / (n : ℚ)) ∧
    (adaptiveSizing n B).2.2 = max 50 (min 500 ((adaptiveSizing n B).2.1 / 2)) ∧
    50 ≤ (adaptiveSizing n B).2.2 ∧ (adaptiveSizing n B).2.2 ≤ 500 := by
  by_cases hc : n * 150 > B
  · have hdiv : B / 150 < n := (Nat.div_lt_iff_lt_mul (by norm_num)).mpr hc
    refine ⟨fun _ => ⟨?_, ?_⟩, fun hn => absurd hc hn, ?_, ?_, ?_⟩
    · simp [adaptiveSizing, hc, min_eq_right (Nat.le_of_lt hdiv)]
    · simp [adaptiveSizing, hc]
    · simp [adaptiveSizing, hc]
    · simp [adaptiveSizing, hc]
    · simp only [adaptiveSizing, if_pos hc]
      exact max_le (by norm_num) (min_le_left _ _)
  · refine ⟨fun hn => absurd hn hc, fun _ => ⟨?_, ?_⟩, ?_, ?_, ?_⟩
    · simp [adaptiveSizing, hc]
    · simp [adaptiveSizing, hc]
    · simp [adaptiveSizing, hc]
    · simp [adaptiveSizing, hc]
    · simp only [adaptiveSizing, if_neg hc]
      exact max_le (by norm_num) (min_le_left _ _)

/-- Witness for c8_adaptive_sizing at 3 hits against a 300-character
budget: the squeeze branch fires (3 times 150 exceeds 300). -/
theorem c8_witness :
    (adaptiveSizing 3 300).1 = 300 / 150 ∧ (adaptiveSizing 3 300).2.1 = 150 ∧
    50 ≤ (adaptiveSizing 3 300).2.2 ∧ (adaptiveSizing 3 300).2.2 ≤ 500 :=
  ⟨((c8_adaptive_sizing 3 300).1 (by norm_num)).1,
   ((c8_adaptive_sizing 3 300).1 (by norm_num)).2,
   (c8_adaptive_sizing 3 300).2.2.2.1,
   (c8_adaptive_sizing 3 300).2.2.2.2⟩

end Anchor
